import Mathlib

/-!
Verification of the conduit-connector-redis core against its specification.

The decode layer embeds `toRecords`, `parseKeyData`, `parsePositionData`,
`arrInterfaceToMap` and `getTimeFromPosition` from the stream iterator file
(package `iterator`).  Redis reply values (`interface\x7b\x7d` in Go) are
modelled by the inductive `RValue`; Go byte slices are modelled as `String`.
A Go function returning `(T, error)` is modelled as `PRes T` (with a `crash`
constructor for runtime faults such as out-of-range indexing, which in Go
would be a panic rather than a returned error).
-/

set_option autoImplicit false

namespace Redis

/-- A value of a Redis reply, as produced by the redigo client:
bulk strings arrive as `[]byte`, arrays as `[]interface\x7b\x7d`,
integers as `int64` and simple status replies as `string`. -/
inductive RValue where
  | bulk (s : String)
  | arr (vs : List RValue)
  | int (n : Int)
  | status (s : String)

/-- The Go `%T` rendering of the dynamic type of a reply value. -/
def typeName : RValue → String
  | .bulk _ => "[]uint8"
  | .arr _ => "[]interface \x7b\x7d"
  | .int _ => "int64"
  | .status _ => "string"

/-- An `opencdc.Record` as built by `sdk.Util.Source.NewRecordCreate` in
`toRecords`: the entry id as position, the metadata value of `"key"`, the
record key bytes and the marshalled payload bytes.  (The created-at metadata
timestamp is not modelled: no verified property concerns it, and the Go code
shares a single mutable metadata map between records of a group.) -/
structure Rec where
  position : String
  metaKey : String
  key : String
  payload : String
deriving Repr, DecidableEq

/-- Result of a Go call returning `(T, error)`: `ok` for a nil error,
`goErr` for a returned error, `crash` for a runtime fault (panic). -/
inductive PRes (α : Type) where
  | ok (a : α)
  | goErr (e : String)
  | crash
deriving Repr

/-- `parseKeyData` from the iterator: asserts the group is an array, its
element 0 a bulk string (the key) and its element 1 an array (the entry
list).  Indexing an array of fewer than two elements faults in Go. -/
def parseKeyData (d : RValue) : PRes (String × List RValue) :=
  match d with
  | .arr keyInfo =>
    match keyInfo[0]? with
    | none => .crash
    | some k0 =>
      match k0 with
      | .bulk key =>
        match keyInfo[1]? with
        | none => .crash
        | some k1 =>
          match k1 with
          | .arr idList => .ok (key, idList)
          | other =>
            .goErr ("keyInfo[0]:invalid data type encountered, expected:[]interface \x7b\x7d, got:"
              ++ typeName other)
      | other =>
        .goErr ("keyInfo[0]: invalid data type encountered, expected:[]uint8, got:"
          ++ typeName other)
  | other =>
    .goErr ("iKey: invalid data type encountered, expected:[]interface \x7b\x7d, got:"
      ++ typeName other)

/-- `parsePositionData` from the iterator: asserts an entry is an array, its
element 0 a bulk string (the entry id / position) and its element 1 an array
(the flat field list). -/
def parsePositionData (i : RValue) : PRes (String × List RValue) :=
  match i with
  | .arr idInfo =>
    match idInfo[0]? with
    | none => .crash
    | some e0 =>
      match e0 with
      | .bulk position =>
        match idInfo[1]? with
        | none => .crash
        | some e1 =>
          match e1 with
          | .arr fieldList => .ok (position, fieldList)
          | other =>
            .goErr ("idInfo[1]:invalid data type encountered, expected:" ++ typeName other
              ++ ", got:[]interface \x7b\x7d")
      | other =>
        .goErr ("idInfo[0]:error invalid id type received " ++ typeName other
          ++ " expected: []uint8")
  | other =>
    .goErr ("iID:invalid data type encountered, expected:[]interface \x7b\x7d, got:"
      ++ typeName other)

/-- Insertion into a Go `map[string]string`: an existing binding for the key
is overwritten, otherwise the binding is added.  The map is modelled as an
association list whose keys stay duplicate-free. -/
def mapInsert (m : List (String × String)) (k v : String) : List (String × String) :=
  if m.any (fun p => decide (p.1 = k)) then
    m.map (fun p => if p.1 = k then (p.1, v) else p)
  else
    m ++ [(k, v)]

/-- Lookup in the modelled Go map. -/
def mapLookup (m : List (String × String)) (k : String) : Option String :=
  match m with
  | [] => none
  | p :: t => if p.1 = k then some p.2 else mapLookup t k

/-- The loop of `arrInterfaceToMap`: consumes the flat field list two
elements at a time, asserting each element is a bulk string; `i` is the Go
loop index, used only in error messages.  The singleton case is unreachable
from `arrInterfaceToMap`, whose even-length check runs first (in Go it would
index out of range). -/
def arrGo (i : Nat) (values : List RValue) (m : List (String × String)) :
    Except String (List (String × String)) :=
  match values with
  | [] => .ok m
  | RValue.bulk k :: RValue.bulk v :: rest => arrGo (i + 2) rest (mapInsert m k v)
  | RValue.bulk _ :: x :: _ =>
    .error ("arrInterfaceToMap value[" ++ toString (i + 1) ++ "] not a bulk string value, got "
      ++ typeName x)
  | [RValue.bulk _] => .error "index out of range"
  | x :: _ =>
    .error ("arrInterfaceToMap key[" ++ toString i ++ "] not a bulk string value, got "
      ++ typeName x)

/-- `arrInterfaceToMap` from the iterator: rejects odd-length field lists,
otherwise folds the alternating name/value bulk strings into a map. -/
def arrInterfaceToMap (values : List RValue) : Except String (List (String × String)) :=
  if values.length % 2 != 0 then
    .error ("arrInterfaceToMap expects even number of values result, got "
      ++ toString values.length)
  else
    arrGo 0 values []

/-- Flatten a list of name/value pairs into the alternating bulk-string form
in which Redis returns stream entry fields. -/
def flattenPairs (ps : List (String × String)) : List RValue :=
  match ps with
  | [] => []
  | kv :: t => RValue.bulk kv.1 :: RValue.bulk kv.2 :: flattenPairs t

/-- Folding a pair list into the modelled Go map, left to right. -/
def foldPairs (ps : List (String × String)) : List (String × String) :=
  ps.foldl (fun m kv => mapInsert m kv.1 kv.2) []

/-- The value of the last occurrence of a name in a pair list, if any. -/
def lastVal (ps : List (String × String)) (k : String) : Option String :=
  match ps with
  | [] => none
  | p :: t =>
    match lastVal t k with
    | some v => some v
    | none => if p.1 = k then some p.2 else none

/-- The keys of a modelled map. -/
def keysOf (m : List (String × String)) : List String :=
  m.map Prod.fst

/-- Insertion step of the key-sorted ordering Go's `json.Marshal` applies to
map entries. -/
def insertByKey (p : String × String) (l : List (String × String)) :
    List (String × String) :=
  match l with
  | [] => [p]
  | q :: t => if p.1 < q.1 then p :: q :: t else q :: insertByKey p t

/-- Sort map entries by key, as `json.Marshal` does for a Go map. -/
def sortByKey (l : List (String × String)) : List (String × String) :=
  match l with
  | [] => []
  | p :: t => insertByKey p (sortByKey t)

/-- `json.Marshal` of a `map[string]string`: a JSON object whose entries are
listed in key order.  (String escaping is not modelled; marshalling a
`map[string]string` cannot fail, so the error branch in `toRecords` after
`json.Marshal` is dead code.) -/
def jsonMarshalMap (m : List (String × String)) : String :=
  "\x7b" ++ String.intercalate ","
      ((sortByKey m).map (fun p => "\"" ++ p.1 ++ "\":\"" ++ p.2 ++ "\"")) ++ "\x7d"

/-- `getTimeFromPosition` from the iterator: the millisecond timestamp is the
leading dash-separated component of the entry id; a component that fails to
parse or is zero falls back to the current wall clock, passed as `now`. -/
def getTimeFromPosition (now : Int) (pos : String) : Int :=
  match ((pos.splitOn "-").headD "").toInt? with
  | some ts => if ts = 0 then now else ts
  | none => now

/-- Inner loop of `toRecords` over the entry list of one group: each entry is
parsed, its field list folded into a map, marshalled, and appended to the
accumulated record slice.  A `parsePositionData` error discards the
accumulated records (Go returns `nil, err`); an `arrInterfaceToMap` error
returns them alongside the wrapped error. -/
def entriesGo (key : String) (idList : List RValue) (acc : List Rec) :
    Option (List Rec × Option String) :=
  match idList with
  | [] => some (acc, none)
  | iID :: rest =>
    match parsePositionData iID with
    | .crash => none
    | .goErr e => some ([], some e)
    | .ok (position, fieldList) =>
      match arrInterfaceToMap fieldList with
      | .error e => some (acc, some ("error converting the []interface\x7b\x7d to map: " ++ e))
      | .ok rMap =>
        entriesGo key rest
          (acc ++ [{ position := position, metaKey := key, key := key,
                     payload := jsonMarshalMap rMap }])

/-- Outer loop of `toRecords` over the groups of an XREAD reply. -/
def groupsGo (resp : List RValue) (acc : List Rec) : Option (List Rec × Option String) :=
  match resp with
  | [] => some (acc, none)
  | iKey :: rest =>
    match parseKeyData iKey with
    | .crash => none
    | .goErr e => some ([], some e)
    | .ok (key, idList) =>
      match entriesGo key idList acc with
      | none => none
      | some (recs, some e) => some (recs, some e)
      | some (recs, none) => groupsGo rest recs

/-- `toRecords` from the iterator: decodes an XREAD reply into the record
slice and error the Go function returns; `none` models a runtime fault. -/
def toRecords (resp : List RValue) : Option (List Rec × Option String) :=
  groupsGo resp []

/-- The record `toRecords` builds for a structurally valid entry of a group
with the given key (specification-side projection used in theorems). -/
def entryRec (key : String) (v : RValue) : Rec :=
  match v with
  | RValue.arr (RValue.bulk id :: RValue.arr fl :: _) =>
    { position := id, metaKey := key, key := key,
      payload := jsonMarshalMap ((arrInterfaceToMap fl).toOption.getD []) }
  | _ => { position := "", metaKey := key, key := key, payload := "" }

/-- The entry id of a structurally valid entry value. -/
def entryId (v : RValue) : String :=
  match v with
  | RValue.arr (RValue.bulk id :: _) => id
  | _ => ""

/-- The entry values of a structurally valid group value. -/
def groupEntries (g : RValue) : List RValue :=
  match g with
  | RValue.arr (_ :: RValue.arr es :: _) => es
  | _ => []

/-- The key of a structurally valid group value. -/
def groupKey (g : RValue) : String :=
  match g with
  | RValue.arr (RValue.bulk k :: _) => k
  | _ => ""

/-- The entry ids of an XREAD reply, groups flattened in order. -/
def flatIds (resp : List RValue) : List String :=
  (resp.map (fun g => (groupEntries g).map entryId)).flatten

/-- The records of an XREAD reply, groups flattened in order. -/
def flatRecs (resp : List RValue) : List Rec :=
  (resp.map (fun g => (groupEntries g).map (entryRec (groupKey g)))).flatten

/-- A valid Redis stream entry id: a millisecond timestamp and a sequence
number, rendered as `<ms>-<seq>`. -/
def isRedisId (s : String) : Prop :=
  ∃ ms seq : Nat, s = Nat.repr ms ++ "-" ++ Nat.repr seq

/-- A well-formed XREAD entry: a two-element array of a bulk-string entry id
in Redis id format and an even-length field list of bulk strings (expressed
as the flattening of a name/value pair list). -/
def WFEntry (v : RValue) : Prop :=
  ∃ id ps, v = RValue.arr [RValue.bulk id, RValue.arr (flattenPairs ps)] ∧ isRedisId id

/-- A well-formed XREAD group: a two-element array of a bulk-string key and
an array of well-formed entries. -/
def WFGroup (g : RValue) : Prop :=
  ∃ key entries, g = RValue.arr [RValue.bulk key, RValue.arr entries]
    ∧ ∀ e ∈ entries, WFEntry e

/-- A well-formed XREAD reply: a list of well-formed groups. -/
def WFReply (resp : List RValue) : Prop :=
  ∀ g ∈ resp, WFGroup g

/-!
The store and pipeline layer embeds `NewStreamIterator`, `startIterator`,
`HasNext` and `Stop` of the stream iterator, and the Redis stream itself.
A stream entry id `<ms>-<seq>` is modelled by its components as a pair of
naturals; `idLt` is the order Redis assigns to stream ids.  One iteration of
the poll task's tick branch is the function `pollTick`; which branch of the
handoff `select` fires is an explicit parameter.  The whole iterator is the
state `PipeState` with the transition relation `PStep`; the two channels of
capacity one appear as the list-valued fields `caches` and `buffer`, a send
being enabled only while the list is shorter than the capacity.
-/

/-- The order of Redis stream entry ids: by millisecond part, then by
sequence part. -/
def idLt (a b : Nat × Nat) : Prop :=
  a.1 < b.1 ∨ (a.1 = b.1 ∧ a.2 < b.2)

instance instDecidableIdLt (a b : Nat × Nat) : Decidable (idLt a b) := by
  unfold idLt; infer_instance

/-- Render a stream entry id as the wire string `<ms>-<seq>`. -/
def renderId (p : Nat × Nat) : String :=
  Nat.repr p.1 ++ "-" ++ Nat.repr p.2

/-- A stream entry held by the store: its id and its field pairs. -/
structure Entry where
  id : Nat × Nat
  fields : List (String × String)
deriving Repr, DecidableEq

/-- The reply value Redis produces for one stream entry. -/
def entryToRValue (e : Entry) : RValue :=
  RValue.arr [RValue.bulk (renderId e.id), RValue.arr (flattenPairs e.fields)]

/-- The reply value Redis produces for an XREAD over one stream key with the
given entries. -/
def xreadReply (key : String) (es : List Entry) : List RValue :=
  [RValue.arr [RValue.bulk key, RValue.arr (es.map entryToRValue)]]

/-- The batch of records `toRecords` decodes from `xreadReply key es`. -/
def batchOf (key : String) (es : List Entry) : List Rec :=
  es.map (fun e =>
    { position := renderId e.id, metaKey := key, key := key,
      payload := jsonMarshalMap (foldPairs e.fields) })

/-- Outcome of the `XREAD` call in one poll cycle: `redis.ErrNil` for an
empty read, a connection error, or a reply. -/
inductive XReadRes where
  | errNil
  | connErr (e : String)
  | reply (resp : List RValue)

/-- Which branch of the handoff `select` fires: the send into the batch
relay, or the termination latch. -/
inductive HandoffRes where
  | delivered
  | dying

/-- Outcome of one iteration of the poll task's tick branch. -/
inductive PollOutcome where
  | dying
  | cont
  | fatal (e : String)
  | handoff (batch : List Rec) (newLast : String)
  | crashed
deriving Repr, DecidableEq

/-- `recordsPerCall` from `NewStreamIterator`: the `COUNT` bound of each
XREAD. -/
def recordsPerCall : Nat := 1000

/-- One iteration of the tick branch of `startIterator`: an `ErrNil` read is
skipped, a connection error or a decode error makes the task return the
wrapped error (killing the pipeline), otherwise the decoded batch is offered
to the batch relay and, only when that send wins the `select`, the cursor is
assigned the position of the batch's last record.  `crashed` models the
out-of-range indexing that an empty decoded batch would fault with. -/
def pollTick (lastID : String) (x : XReadRes) (h : HandoffRes) : PollOutcome :=
  match x with
  | .errNil => .cont
  | .connErr e => .fatal ("error reading data from stream: " ++ e)
  | .reply resp =>
    match toRecords resp with
    | none => .crashed
    | some (_, some e) => .fatal ("error converting stream data to records: " ++ e)
    | some (recs, none) =>
      match h with
      | .dying => .dying
      | .delivered =>
        match recs.getLast? with
        | some r => .handoff recs r.position
        | none => .crashed

/-- The cursor after a poll outcome: only a successful handoff assigns it. -/
def cursorAfter (old : String) (o : PollOutcome) : String :=
  match o with
  | .handoff _ newLast => newLast
  | _ => old

/-- The cursor stayed put or advanced strictly in the store's id order. -/
def cursorAdvances (a b : String) : Prop :=
  a = b ∨ ∃ x y, a = renderId x ∧ b = renderId y ∧ idLt x y

/-- The entries a faithful store hands to `XREAD COUNT recordsPerCall` with
cursor `c`: the first `recordsPerCall` stored entries with id after `c`. -/
def xreadEntries (S : List Entry) (c : Nat × Nat) : List Entry :=
  (S.filter (fun e => decide (idLt c e.id))).take recordsPerCall

/-- A faithful store's XREAD result: `ErrNil` when no entry follows the
cursor, otherwise the reply for the selected entries. -/
def xreadStore (key : String) (S : List Entry) (c : Nat × Nat) : XReadRes :=
  match xreadEntries S c with
  | [] => .errNil
  | _ => .reply (xreadReply key (xreadEntries S c))

/-- The state of a stream iterator: the cursor, the two relays (`caches` for
batches, `buffer` for records, each of channel capacity one), the records of
the batch the flush task has taken but not yet pushed, the tomb's dying flag
and recorded reason, the ticker, and the connection (`none` once the `client`
field has been set to nil). -/
structure PipeState where
  lastID : String
  caches : List (List Rec)
  flushHold : List Rec
  buffer : List Rec
  tombDying : Bool
  tombReason : Option String
  tickerOn : Bool
  client : Option Unit
deriving Repr, DecidableEq

/-- The channel capacity of the batch relay (`make(chan []opencdc.Record, 1)`). -/
def cachesCap : Nat := 1

/-- The channel capacity of the record relay (`make(chan opencdc.Record, 1)`). -/
def bufferCap : Nat := 1

/-- The iterator state `NewStreamIterator` starts both tasks from. -/
def initState (key lastID : String) : PipeState :=
  { lastID := lastID, caches := [], flushHold := [], buffer := [],
    tombDying := false, tombReason := none, tickerOn := true, client := some () }

/-- `NewStreamIterator`: the TYPE reply must be `none` or `stream`; any
other type (or an error fetching it) is returned as an error before either
pipeline task is started; an empty resume position becomes the `0-0`
sentinel.  (`key` is unused in the result state beyond the messages; the
`.ok` branch is the state in which both tasks run.) -/
def NewStreamIterator (typeReply : Except String String) (key : String)
    (position : String) : Except String PipeState :=
  match typeReply with
  | .error e => .error ("error fetching type of key(" ++ key ++ "): " ++ e)
  | .ok keyType =>
    if keyType ≠ "none" ∧ keyType ≠ "stream" then
      .error ("invalid key type: " ++ keyType ++ ", expected none or stream")
    else
      .ok (initState key (if position = "" then "0-0" else position))

/-- `HasNext` from the iterator: the record relay is non-empty or the tomb is
no longer alive. -/
def HasNext (s : PipeState) : Bool :=
  decide (0 < s.buffer.length) || s.tombDying

/-- `tomb.Kill`: marks the tomb dying; the first recorded reason wins. -/
def tombKill (s : PipeState) (reason : String) : PipeState :=
  { s with tombDying := true,
           tombReason := match s.tombReason with
                         | some r => some r
                         | none => some reason }

/-- `Stop` from the iterator: stops the ticker, kills the tomb with the
"iterator stopped" reason and closes the connection; on a successful close
the `client` field is set to nil.  Calling it with a nil `client` faults
(`none`): the method call on a nil interface is a nil-pointer dereference.
`closeOk` says whether `client.Close()` returns an error. -/
def Stop (closeOk : Bool) (s : PipeState) : Option (PipeState × Option String) :=
  match s.client with
  | none => none
  | some _ =>
    let s1 := tombKill { s with tickerOn := false } "iterator stopped"
    if closeOk then
      some ({ s1 with client := none }, none)
    else
      some (s1, some "error closing the redis client: close failed")

/-- Interleaved transitions of the two pipeline tasks, the consumer and
`Stop`.  A send on a relay is enabled only while its length is below the
channel capacity; the poll task's handoff also assigns the cursor. -/
inductive PStep : PipeState → PipeState → Prop where
  | handoff : ∀ (s : PipeState) (batch : List Rec) (r : Rec),
      batch.getLast? = some r →
      s.caches.length < cachesCap →
      s.tombDying = false →
      PStep s { s with caches := s.caches ++ [batch], lastID := r.position }
  | pollFatal : ∀ (s : PipeState) (e : String),
      s.tombDying = false →
      PStep s (tombKill s e)
  | flushTake : ∀ (s : PipeState) (b : List Rec) (rest : List (List Rec)),
      s.tombDying = false →
      s.flushHold = [] →
      s.caches = b :: rest →
      PStep s { s with caches := rest, flushHold := b }
  | flushPush : ∀ (s : PipeState) (r : Rec) (rest : List Rec),
      s.tombDying = false →
      s.flushHold = r :: rest →
      s.buffer.length < bufferCap →
      PStep s { s with buffer := s.buffer ++ [r], flushHold := rest }
  | consumerNext : ∀ (s : PipeState) (r : Rec) (rest : List Rec),
      s.buffer = r :: rest →
      PStep s { s with buffer := rest }
  | stopCall : ∀ (s sNext : PipeState) (closeOk : Bool) (e : Option String),
      Stop closeOk s = some (sNext, e) →
      PStep s sNext

/-- States reachable from a given start state under `PStep`. -/
inductive Reach (s0 : PipeState) : PipeState → Prop where
  | base : Reach s0 s0
  | step : ∀ {s sNext : PipeState}, Reach s0 s → PStep s sNext → Reach s0 sNext

/-!
The destination layer embeds `validateKey`, `Write` and
`payloadToStreamArgs` from the destination file.  A record arriving at the
destination carries its raw payload bytes; the result of `json.Unmarshal`
on those bytes is carried alongside (`none` when the bytes are not a JSON
object), since the JSON grammar itself is not modelled.  The effects of
issued commands are the `RedisEffects` state; whether the command issued
for the i-th record succeeds is the oracle `cmdOk`.
-/

/-- The mode constant `config.ModePubSub`.  Modelled from the spec: the
`config` package is not among the sources; the parameter documentation lists
the modes as `pubsub` and `stream` with default `pubsub`. -/
def ModePubSub : String := "pubsub"

/-- The mode constant `config.ModeStream`.  Modelled from the spec, as for
`ModePubSub`. -/
def ModeStream : String := "stream"

/-- `validateKey` from the destination: pubsub mode needs no check; stream
mode requires the key's TYPE to be `none` or `stream`; any other mode is
invalid.  The result is the returned error, if any. -/
def validateKey (mode : String) (redisKey : String)
    (typeReply : Except String String) : Option String :=
  if mode = ModePubSub then
    none
  else if mode = ModeStream then
    match typeReply with
    | .error e => some ("error fetching type of key(" ++ redisKey ++ "): " ++ e)
    | .ok keyType =>
      if keyType ≠ "none" ∧ keyType ≠ "stream" then
        some ("invalid key type: " ++ keyType ++ ", expected none or stream")
      else
        none
  else
    some ("invalid mode(" ++ mode ++ ") encountered")

/-- A record as seen by the destination: its payload-after bytes, and the
result of `json.Unmarshal` of those bytes into a `map[string]string`-shaped
object (`none` when the bytes are not valid JSON for a flat object). -/
structure DestRecord where
  payloadAfter : String
  parsed : Option (List (String × String))
deriving Repr, DecidableEq

/-- `payloadToStreamArgs` from the destination: rejects non-JSON payloads and
empty objects, otherwise flattens the object into the XADD argument list. -/
def payloadToStreamArgs (r : DestRecord) : Except String (List String) :=
  match r.parsed with
  | none => .error "invalid json received in payload: unmarshal failed"
  | some kvs =>
    let keyValArgs := kvs.foldr (fun kv acc => kv.1 :: kv.2 :: acc) []
    if keyValArgs = [] then .error "no key-value pair received"
    else .ok keyValArgs

/-- The XADD argument list of a record whose payload converts successfully. -/
def argsOf (r : DestRecord) : List String :=
  match payloadToStreamArgs r with
  | .ok a => a
  | .error _ => []

/-- Effects of the commands a destination has issued successfully: messages
published to the channel, and entries appended to the stream. -/
structure RedisEffects where
  published : List String
  streamEntries : List (List String)
deriving Repr, DecidableEq

/-- The pubsub loop of `Write`: publish each record's payload bytes in
order; the first failing PUBLISH stops the loop and reports the index of the
failing record.  `i` is the index of the next record. -/
def writePubSubLoop (key : String) (cmdOk : Nat → Bool) (i : Nat)
    (recs : List DestRecord) (st : RedisEffects) :
    (Nat × Option String) × RedisEffects :=
  match recs with
  | [] => ((i, none), st)
  | r :: rest =>
    if cmdOk i then
      writePubSubLoop key cmdOk (i + 1) rest
        { st with published := st.published ++ [r.payloadAfter] }
    else
      ((i, some ("error publishing message to channel(" ++ key ++ "): command failed")), st)

/-- The stream loop of `Write`: convert each record's payload to XADD
arguments and append with an auto-generated id; a conversion failure or a
failing XADD stops the loop and reports the index of the failing record. -/
def writeStreamLoop (key : String) (cmdOk : Nat → Bool) (i : Nat)
    (recs : List DestRecord) (st : RedisEffects) :
    (Nat × Option String) × RedisEffects :=
  match recs with
  | [] => ((i, none), st)
  | r :: rest =>
    match payloadToStreamArgs r with
    | .error e => ((i, some ("invalid payload: " ++ e)), st)
    | .ok keyValArgs =>
      if cmdOk i then
        writeStreamLoop key cmdOk (i + 1) rest
          { st with streamEntries := st.streamEntries ++ [keyValArgs] }
      else
        ((i, some ("error streaming message to key(" ++ key ++ "):command failed")), st)

/-- `Write` from the destination: dispatch on the mode; an unknown mode
returns `(0, error)` without issuing any command. -/
def Write (mode key : String) (cmdOk : Nat → Bool) (recs : List DestRecord)
    (st : RedisEffects) : (Nat × Option String) × RedisEffects :=
  if mode = ModePubSub then
    writePubSubLoop key cmdOk 0 recs st
  else if mode = ModeStream then
    writeStreamLoop key cmdOk 0 recs st
  else
    (((0 : Nat), some ("invalid mode(" ++ mode ++ ") encountered")), st)

/-- Whether the i-th record fails in stream mode: its payload fails to
convert, or its XADD command fails. -/
def streamRecFails (cmdOk : Nat → Bool) (i : Nat) (r : DestRecord) : Bool :=
  match payloadToStreamArgs r with
  | .error _ => true
  | .ok _ => !(cmdOk i)

/-! ### Lemmas about the field-list fold -/

theorem length_flattenPairs (ps : List (String × String)) :
    (flattenPairs ps).length = 2 * ps.length := by
  induction ps with
  | nil => rfl
  | cons p t ih => simp [flattenPairs, ih]; omega

theorem arrGo_flatten (ps : List (String × String)) :
    ∀ (i : Nat) (m : List (String × String)),
      arrGo i (flattenPairs ps) m = .ok (ps.foldl (fun m kv => mapInsert m kv.1 kv.2) m) := by
  induction ps with
  | nil => intro i m; rfl
  | cons p t ih => intro i m; simp [flattenPairs, arrGo, ih]

theorem arrInterfaceToMap_flatten (ps : List (String × String)) :
    arrInterfaceToMap (flattenPairs ps) = .ok (foldPairs ps) := by
  unfold arrInterfaceToMap foldPairs
  rw [length_flattenPairs]
  simp [Nat.mul_mod_right, arrGo_flatten]

theorem mapLookup_append (m m2 : List (String × String)) (k : String) :
    mapLookup (m ++ m2) k =
      match mapLookup m k with
      | some v => some v
      | none => mapLookup m2 k := by
  induction m with
  | nil => rfl
  | cons p t ih =>
    by_cases h : p.1 = k
    · simp [mapLookup, h]
    · simp [mapLookup, h, ih]

theorem mapLookup_of_any_false (m : List (String × String)) (k : String)
    (h : m.any (fun p => decide (p.1 = k)) = false) : mapLookup m k = none := by
  induction m with
  | nil => rfl
  | cons p t ih =>
    simp only [List.any_cons, Bool.or_eq_false_iff, decide_eq_false_iff_not] at h
    simp [mapLookup, h.1, ih h.2]

theorem mapLookup_overwrite (k v : String) (m : List (String × String)) :
    mapLookup (m.map (fun p => if p.1 = k then (p.1, v) else p)) k =
      match mapLookup m k with
      | some _ => some v
      | none => none := by
  induction m with
  | nil => rfl
  | cons p t ih =>
    by_cases hp : p.1 = k
    · simp [mapLookup, hp]
    · simp [mapLookup, hp, ih]

theorem mapLookup_map_ne (k v k2 : String) (hne : k2 ≠ k) (m : List (String × String)) :
    mapLookup (m.map (fun p => if p.1 = k then (p.1, v) else p)) k2 = mapLookup m k2 := by
  induction m with
  | nil => rfl
  | cons p t ih =>
    by_cases hpk : p.1 = k
    · have hk2 : k ≠ k2 := fun hc => hne hc.symm
      simp [mapLookup, hpk, hk2, ih]
    · by_cases hp2 : p.1 = k2
      · simp [mapLookup, hpk, hp2, hne]
      · simp [mapLookup, hpk, hp2, ih]

theorem any_eq_true_lookup_some (m : List (String × String)) (k : String)
    (h : m.any (fun p => decide (p.1 = k)) = true) : ∃ v, mapLookup m k = some v := by
  induction m with
  | nil => simp at h
  | cons p t ih =>
    by_cases hp : p.1 = k
    · exact ⟨p.2, by simp [mapLookup, hp]⟩
    · simp only [List.any_cons, Bool.or_eq_true, decide_eq_true_eq] at h
      rcases h with h | h
      · exact absurd h hp
      · rcases ih h with ⟨v2, hv⟩
        exact ⟨v2, by simp [mapLookup, hp, hv]⟩

theorem mapLookup_insert_self (m : List (String × String)) (k v : String) :
    mapLookup (mapInsert m k v) k = some v := by
  unfold mapInsert
  by_cases h : m.any (fun p => decide (p.1 = k)) = true
  · rcases any_eq_true_lookup_some m k h with ⟨v2, hv⟩
    simp [h, mapLookup_overwrite, hv]
  · have h' : m.any (fun p => decide (p.1 = k)) = false := by
      cases hb : m.any (fun p => decide (p.1 = k)) with
      | true => exact absurd hb h
      | false => rfl
    simp [h', mapLookup_append, mapLookup_of_any_false m k h', mapLookup]

theorem mapLookup_insert_ne (m : List (String × String)) (k v k2 : String)
    (hne : k2 ≠ k) : mapLookup (mapInsert m k v) k2 = mapLookup m k2 := by
  unfold mapInsert
  by_cases h : m.any (fun p => decide (p.1 = k)) = true
  · simp only [h, if_true]
    exact mapLookup_map_ne k v k2 hne m
  · have h' : m.any (fun p => decide (p.1 = k)) = false := by
      cases hb : m.any (fun p => decide (p.1 = k)) with
      | true => exact absurd hb h
      | false => rfl
    rw [if_neg (by simp [h']), mapLookup_append]
    cases hm : mapLookup m k2 with
    | some v2 => rfl
    | none => simp [mapLookup, Ne.symm hne]

theorem mapLookup_foldl (ps : List (String × String)) :
    ∀ (m : List (String × String)) (k : String),
      mapLookup (ps.foldl (fun m kv => mapInsert m kv.1 kv.2) m) k =
        match lastVal ps k with
        | some v => some v
        | none => mapLookup m k := by
  induction ps with
  | nil => intro m k; rfl
  | cons p t ih =>
    intro m k
    rw [List.foldl_cons, ih]
    cases hlv : lastVal t k with
    | some v => simp [lastVal, hlv]
    | none =>
      by_cases hp : p.1 = k
      · subst hp
        simp [lastVal, hlv, mapLookup_insert_self]
      · simp [lastVal, hlv, Ne.symm hp, hp,
          mapLookup_insert_ne m p.1 p.2 k (fun hc => hp hc.symm)]

theorem mapLookup_foldPairs (ps : List (String × String)) (k : String) :
    mapLookup (foldPairs ps) k = lastVal ps k := by
  unfold foldPairs
  rw [mapLookup_foldl]
  cases hlv : lastVal ps k <;> simp [mapLookup]

theorem keysOf_mapInsert (m : List (String × String)) (k v : String) :
    keysOf (mapInsert m k v) =
      if m.any (fun p => decide (p.1 = k)) then keysOf m else keysOf m ++ [k] := by
  unfold mapInsert keysOf
  by_cases h : m.any (fun p => decide (p.1 = k)) = true
  · simp only [h, if_true, List.map_map]
    refine List.map_congr_left ?_
    intro p _
    by_cases hp : p.1 = k <;> simp [hp]
  · have h' : m.any (fun p => decide (p.1 = k)) = false := by
      cases hb : m.any (fun p => decide (p.1 = k)) with
      | true => exact absurd hb h
      | false => rfl
    simp [h']

theorem nodup_keysOf_mapInsert (m : List (String × String)) (k v : String)
    (h : (keysOf m).Nodup) : (keysOf (mapInsert m k v)).Nodup := by
  rw [keysOf_mapInsert]
  by_cases hany : m.any (fun p => decide (p.1 = k)) = true
  · simpa [hany] using h
  · have h' : m.any (fun p => decide (p.1 = k)) = false := by
      cases hb : m.any (fun p => decide (p.1 = k)) with
      | true => exact absurd hb hany
      | false => rfl
    have hk : k ∉ keysOf m := by
      intro hk
      rcases List.mem_map.mp hk with ⟨p, hp, hpk⟩
      have : m.any (fun p => decide (p.1 = k)) = true :=
        List.any_eq_true.mpr ⟨p, hp, by simp [hpk]⟩
      rw [this] at h'; cases h'
    simp only [h', if_false, Bool.false_eq_true]
    exact List.Nodup.append h (List.nodup_singleton k)
      (by simpa [List.disjoint_singleton] using hk)

theorem nodup_keysOf_foldl (ps : List (String × String)) :
    ∀ m : List (String × String), (keysOf m).Nodup →
      (keysOf (ps.foldl (fun m kv => mapInsert m kv.1 kv.2) m)).Nodup := by
  induction ps with
  | nil => intro m h; exact h
  | cons p t ih =>
    intro m h
    rw [List.foldl_cons]
    exact ih _ (nodup_keysOf_mapInsert m p.1 p.2 h)

theorem nodup_keysOf_foldPairs (ps : List (String × String)) :
    (keysOf (foldPairs ps)).Nodup :=
  nodup_keysOf_foldl ps [] (by simp [keysOf])

theorem length_mapInsert_le (m : List (String × String)) (k v : String) :
    (mapInsert m k v).length ≤ m.length + 1 := by
  unfold mapInsert
  by_cases h : m.any (fun p => decide (p.1 = k)) = true
  · simp [h]
  · have h' : m.any (fun p => decide (p.1 = k)) = false := by
      cases hb : m.any (fun p => decide (p.1 = k)) with
      | true => exact absurd hb h
      | false => rfl
    simp [h']

theorem length_foldl_le (ps : List (String × String)) :
    ∀ m : List (String × String),
      (ps.foldl (fun m kv => mapInsert m kv.1 kv.2) m).length ≤ m.length + ps.length := by
  induction ps with
  | nil => intro m; simp
  | cons p t ih =>
    intro m
    rw [List.foldl_cons]
    calc (t.foldl (fun m kv => mapInsert m kv.1 kv.2) (mapInsert m p.1 p.2)).length
        ≤ (mapInsert m p.1 p.2).length + t.length := ih _
      _ ≤ m.length + 1 + t.length := by
          have := length_mapInsert_le m p.1 p.2; omega
      _ = m.length + (p :: t).length := by simp; omega

theorem length_foldPairs_le (ps : List (String × String)) :
    (foldPairs ps).length ≤ ps.length := by
  have := length_foldl_le ps []
  simpa [foldPairs] using this

/-! ### Lemmas about decoding well-formed replies -/

theorem parsePositionData_pair (id : String) (fl : List RValue) :
    parsePositionData (RValue.arr [RValue.bulk id, RValue.arr fl]) = .ok (id, fl) := rfl

theorem parseKeyData_pair (key : String) (entries : List RValue) :
    parseKeyData (RValue.arr [RValue.bulk key, RValue.arr entries]) = .ok (key, entries) := rfl

theorem entryRec_pair (key id : String) (ps : List (String × String)) :
    entryRec key (RValue.arr [RValue.bulk id, RValue.arr (flattenPairs ps)]) =
      { position := id, metaKey := key, key := key,
        payload := jsonMarshalMap (foldPairs ps) } := by
  simp [entryRec, arrInterfaceToMap_flatten, Except.toOption]

theorem entriesGo_append_wf (key : String) (good : List RValue)
    (hwf : ∀ e ∈ good, WFEntry e) :
    ∀ (tail : List RValue) (acc : List Rec),
      entriesGo key (good ++ tail) acc =
        entriesGo key tail (acc ++ good.map (entryRec key)) := by
  induction good with
  | nil => intro tail acc; simp
  | cons e t ih =>
    intro tail acc
    rcases hwf e (by simp) with ⟨id, ps, he, _⟩
    subst he
    simp only [List.cons_append, entriesGo, parsePositionData_pair, arrInterfaceToMap_flatten,
      List.append_eq]
    rw [ih (fun e2 he2 => hwf e2 (by simp [he2])) tail]
    simp [entryRec_pair, List.append_assoc]

theorem entriesGo_wf (key : String) (entries : List RValue)
    (hwf : ∀ e ∈ entries, WFEntry e) (acc : List Rec) :
    entriesGo key entries acc = some (acc ++ entries.map (entryRec key), none) := by
  have := entriesGo_append_wf key entries hwf [] acc
  simpa [entriesGo] using this

theorem groupsGo_wf (resp : List RValue) (hwf : WFReply resp) :
    ∀ acc : List Rec, groupsGo resp acc = some (acc ++ flatRecs resp, none) := by
  induction resp with
  | nil => intro acc; simp [groupsGo, flatRecs]
  | cons g t ih =>
    intro acc
    rcases hwf g (by simp) with ⟨key, entries, hg, hents⟩
    subst hg
    simp only [groupsGo, parseKeyData_pair]
    rw [entriesGo_wf key entries hents acc]
    show groupsGo t (acc ++ entries.map (entryRec key)) = _
    rw [ih (fun g2 hg2 => hwf g2 (by simp [hg2])) _]
    simp [flatRecs, groupKey, groupEntries, List.append_assoc]

theorem toRecords_wf (resp : List RValue) (hwf : WFReply resp) :
    toRecords resp = some (flatRecs resp, none) := by
  have := groupsGo_wf resp hwf []
  simpa [toRecords] using this

theorem map_position_flatRecs (resp : List RValue) (hwf : WFReply resp) :
    (flatRecs resp).map (fun r => r.position) = flatIds resp := by
  induction resp with
  | nil => rfl
  | cons g t ih =>
    rcases hwf g (by simp) with ⟨key, entries, hg, hents⟩
    subst hg
    simp only [flatRecs, flatIds, List.map_cons, List.flatten_cons] at ih ⊢
    rw [List.map_append]
    congr 1
    · rw [List.map_map]
      refine List.map_congr_left ?_
      intro e he
      rcases hents e he with ⟨id, ps, he2, _⟩
      subst he2
      simp [entryRec_pair, entryId, groupKey, groupEntries]
    · exact ih (fun g2 hg2 => hwf g2 (by simp [hg2]))

theorem isRedisId_ne_empty (s : String) (h : isRedisId s) : s ≠ "" := by
  rcases h with ⟨ms, seq, hs⟩
  intro he
  rw [he] at hs
  have := congrArg String.length hs
  simp only [String.length_append] at this
  have hd : ("-" : String).length = 1 := rfl
  rw [hd] at this
  have h0 : ("" : String).length = 0 := rfl
  rw [h0] at this
  omega

theorem wfReply_xreadReply (key : String) (es : List Entry) :
    WFReply (xreadReply key es) := by
  intro g hg
  simp only [xreadReply, List.mem_singleton] at hg
  subst hg
  refine ⟨key, es.map entryToRValue, rfl, ?_⟩
  intro e he
  rcases List.mem_map.mp he with ⟨en, _, heq⟩
  subst heq
  exact ⟨renderId en.id, en.fields, rfl, ⟨en.id.1, en.id.2, rfl⟩⟩

theorem flatRecs_xreadReply (key : String) (es : List Entry) :
    flatRecs (xreadReply key es) = batchOf key es := by
  simp only [flatRecs, xreadReply, List.map_cons, List.map_nil, List.flatten_cons,
    List.flatten_nil, List.append_nil, groupKey, groupEntries, batchOf, List.map_map]
  refine List.map_congr_left ?_
  intro e _
  simp [Function.comp, entryToRValue, entryRec_pair]

theorem toRecords_xreadReply (key : String) (es : List Entry) :
    toRecords (xreadReply key es) = some (batchOf key es, none) := by
  rw [toRecords_wf _ (wfReply_xreadReply key es), flatRecs_xreadReply]

theorem getLast_batchOf (key : String) (es : List Entry) (e : Entry)
    (h : es.getLast? = some e) :
    (batchOf key es).getLast? = some
      { position := renderId e.id, metaKey := key, key := key,
        payload := jsonMarshalMap (foldPairs e.fields) } := by
  simp [batchOf, List.getLast?_map, h]

theorem flatIds_all_redis (resp : List RValue) (hwf : WFReply resp) :
    ∀ id ∈ flatIds resp, isRedisId id := by
  intro id hid
  unfold flatIds at hid
  rcases List.mem_flatten.mp hid with ⟨l, hl, hidl⟩
  rcases List.mem_map.mp hl with ⟨g, hg, rfl⟩
  rcases List.mem_map.mp hidl with ⟨e, he, rfl⟩
  rcases hwf g hg with ⟨key, entries, rfl, hents⟩
  rcases hents e (by simpa [groupEntries] using he) with ⟨id2, ps, rfl, hid2⟩
  simpa [entryId] using hid2

/-! ### Claim theorems for the decode layer -/

/-- C2: for every well-formed XREAD response (each entry a pair of an entry
id in Redis id format and an even-length field list of bulk strings),
`toRecords` returns exactly as many records as there are entries, in the
same relative order (the positions of the decoded records, in order, are
the entry ids of the response, in order), each record carrying a non-empty
position equal to its entry id, and no error. -/
theorem toRecords_decodes_wellformed_reply (resp : List RValue) (hwf : WFReply resp) :
    toRecords resp = some (flatRecs resp, none)
    ∧ (flatRecs resp).map (fun r => r.position) = flatIds resp
    ∧ (flatRecs resp).length = (flatIds resp).length
    ∧ ∀ r ∈ flatRecs resp, r.position ≠ "" := by
  have hmap := map_position_flatRecs resp hwf
  refine ⟨toRecords_wf resp hwf, hmap, ?_, ?_⟩
  · rw [← hmap, List.length_map]
  · intro r hr
    have : r.position ∈ flatIds resp := by
      rw [← hmap]
      exact List.mem_map_of_mem _ hr
    exact isRedisId_ne_empty _ (flatIds_all_redis resp hwf _ this)

/-- Witness for C2 at a concrete well-formed single-group, single-entry
reply. -/
theorem toRecords_decodes_wellformed_reply_witness :
    toRecords [RValue.arr [RValue.bulk "k",
        RValue.arr [RValue.arr [RValue.bulk "1-0", RValue.arr (flattenPairs [("a", "b")])]]]]
      = some (flatRecs [RValue.arr [RValue.bulk "k",
          RValue.arr [RValue.arr [RValue.bulk "1-0", RValue.arr (flattenPairs [("a", "b")])]]]],
        none)
    ∧ (flatRecs [RValue.arr [RValue.bulk "k",
        RValue.arr [RValue.arr [RValue.bulk "1-0",
          RValue.arr (flattenPairs [("a", "b")])]]]]).map (fun r => r.position)
      = flatIds [RValue.arr [RValue.bulk "k",
          RValue.arr [RValue.arr [RValue.bulk "1-0", RValue.arr (flattenPairs [("a", "b")])]]]]
    ∧ (flatRecs [RValue.arr [RValue.bulk "k",
        RValue.arr [RValue.arr [RValue.bulk "1-0",
          RValue.arr (flattenPairs [("a", "b")])]]]]).length
      = (flatIds [RValue.arr [RValue.bulk "k",
          RValue.arr [RValue.arr [RValue.bulk "1-0",
            RValue.arr (flattenPairs [("a", "b")])]]]]).length
    ∧ ∀ r ∈ flatRecs [RValue.arr [RValue.bulk "k",
        RValue.arr [RValue.arr [RValue.bulk "1-0", RValue.arr (flattenPairs [("a", "b")])]]]],
        r.position ≠ "" :=
  toRecords_decodes_wellformed_reply _ (by
    intro g hg
    simp only [List.mem_singleton] at hg
    subst hg
    refine ⟨"k", [RValue.arr [RValue.bulk "1-0", RValue.arr (flattenPairs [("a", "b")])]],
      rfl, ?_⟩
    intro e he
    simp only [List.mem_singleton] at he
    subst he
    exact ⟨"1-0", [("a", "b")], rfl, 1, 0, by decide⟩)

/-- C10: when an entry's field list repeats a field name, decoding does not
fail: `arrInterfaceToMap` folds the pairs into a map in which the last
occurrence of a name wins, whose keys are duplicate-free, and which holds at
most half as many entries as the flat field list has elements — so neither
duplicate fields nor their multiplicity survive into the re-encoded
payload. -/
theorem arrInterfaceToMap_duplicates_last_wins (ps : List (String × String)) :
    arrInterfaceToMap (flattenPairs ps) = .ok (foldPairs ps)
    ∧ (∀ k, mapLookup (foldPairs ps) k = lastVal ps k)
    ∧ (keysOf (foldPairs ps)).Nodup
    ∧ (foldPairs ps).length ≤ (flattenPairs ps).length / 2 := by
  refine ⟨arrInterfaceToMap_flatten ps, mapLookup_foldPairs ps, nodup_keysOf_foldPairs ps, ?_⟩
  rw [length_flattenPairs]
  have := length_foldPairs_le ps
  omega

/-- C5: a decode input whose entry has an odd-length field list makes
decoding fail with the explicit structural error naming the mismatch,
produces no record for that entry (only the records of the well-formed
entries before it come back, and the caller discards those), and makes the
poll task return the wrapped error — the fatal outcome that kills the
pipeline (`tombKill` marks the tomb dying) instead of retrying. -/
theorem odd_field_list_fatal (key id lastID : String) (good rest fl : List RValue)
    (h : HandoffRes) (s : PipeState)
    (hwf : ∀ e ∈ good, WFEntry e) (hodd : fl.length % 2 = 1) :
    arrInterfaceToMap fl = .error ("arrInterfaceToMap expects even number of values result, got "
        ++ toString fl.length)
    ∧ toRecords [RValue.arr [RValue.bulk key,
          RValue.arr (good ++ RValue.arr [RValue.bulk id, RValue.arr fl] :: rest)]]
      = some (good.map (entryRec key),
          some ("error converting the []interface\x7b\x7d to map: "
            ++ ("arrInterfaceToMap expects even number of values result, got "
              ++ toString fl.length)))
    ∧ pollTick lastID (XReadRes.reply [RValue.arr [RValue.bulk key,
          RValue.arr (good ++ RValue.arr [RValue.bulk id, RValue.arr fl] :: rest)]]) h
      = PollOutcome.fatal ("error converting stream data to records: "
          ++ ("error converting the []interface\x7b\x7d to map: "
            ++ ("arrInterfaceToMap expects even number of values result, got "
              ++ toString fl.length)))
    ∧ (tombKill s ("error converting stream data to records: "
          ++ ("error converting the []interface\x7b\x7d to map: "
            ++ ("arrInterfaceToMap expects even number of values result, got "
              ++ toString fl.length)))).tombDying = true := by
  have ha : arrInterfaceToMap fl
      = .error ("arrInterfaceToMap expects even number of values result, got "
        ++ toString fl.length) := by
    unfold arrInterfaceToMap
    have : (fl.length % 2 != 0) = true := by simp [hodd]
    simp [this]
  have hb : toRecords [RValue.arr [RValue.bulk key,
        RValue.arr (good ++ RValue.arr [RValue.bulk id, RValue.arr fl] :: rest)]]
      = some (good.map (entryRec key),
          some ("error converting the []interface\x7b\x7d to map: "
            ++ ("arrInterfaceToMap expects even number of values result, got "
              ++ toString fl.length))) := by
    unfold toRecords
    simp only [groupsGo, parseKeyData_pair]
    rw [entriesGo_append_wf key good hwf]
    simp only [entriesGo, parsePositionData_pair, ha, List.nil_append]
  refine ⟨ha, hb, ?_, rfl⟩
  simp only [pollTick, hb]

/-- Witness for C5 at a concrete reply whose single entry has a one-element
field list. -/
theorem odd_field_list_fatal_witness :
    arrInterfaceToMap [RValue.bulk "a"]
      = .error ("arrInterfaceToMap expects even number of values result, got "
        ++ toString [RValue.bulk "a"].length)
    ∧ toRecords [RValue.arr [RValue.bulk "k",
          RValue.arr ([] ++ RValue.arr [RValue.bulk "1-0", RValue.arr [RValue.bulk "a"]] :: [])]]
      = some (List.map (entryRec "k") [],
          some ("error converting the []interface\x7b\x7d to map: "
            ++ ("arrInterfaceToMap expects even number of values result, got "
              ++ toString [RValue.bulk "a"].length)))
    ∧ pollTick "0-0" (XReadRes.reply [RValue.arr [RValue.bulk "k",
          RValue.arr ([] ++ RValue.arr [RValue.bulk "1-0", RValue.arr [RValue.bulk "a"]] :: [])]])
        HandoffRes.delivered
      = PollOutcome.fatal ("error converting stream data to records: "
          ++ ("error converting the []interface\x7b\x7d to map: "
            ++ ("arrInterfaceToMap expects even number of values result, got "
              ++ toString [RValue.bulk "a"].length)))
    ∧ (tombKill (initState "k" "0-0") ("error converting stream data to records: "
          ++ ("error converting the []interface\x7b\x7d to map: "
            ++ ("arrInterfaceToMap expects even number of values result, got "
              ++ toString [RValue.bulk "a"].length)))).tombDying = true :=
  odd_field_list_fatal "k" "1-0" "0-0" [] [] [RValue.bulk "a"] HandoffRes.delivered
    (initState "k" "0-0") (by intro e he; simp at he) (by decide)

/-! ### Claim theorems for the poll cycle and the cursor -/

theorem xreadEntries_gt (S : List Entry) (c : Nat × Nat) (e : Entry)
    (h : e ∈ xreadEntries S c) : idLt c e.id := by
  unfold xreadEntries at h
  have hf := List.mem_of_mem_take h
  exact of_decide_eq_true (List.mem_filter.mp hf).2

/-- C1: a poll cycle that hands off a non-empty decoded batch assigns the
cursor the position of the batch's last record; the assignment happens only
when the handoff into the batch relay wins the `select` (when the
termination latch wins instead, or the read is empty or fails, the cursor is
unchanged); and the cursor never moves backward: the new cursor renders the
id of the batch's last entry, which is strictly greater, in the store's id
order, than the cursor before the cycle. -/
theorem cursor_advances_only_after_handoff (key : String) (S : List Entry)
    (c : Nat × Nat) (elast : Entry)
    (hlast : (xreadEntries S c).getLast? = some elast) :
    xreadStore key S c = XReadRes.reply (xreadReply key (xreadEntries S c))
    ∧ pollTick (renderId c) (XReadRes.reply (xreadReply key (xreadEntries S c)))
        HandoffRes.delivered
      = PollOutcome.handoff (batchOf key (xreadEntries S c)) (renderId elast.id)
    ∧ ((batchOf key (xreadEntries S c)).getLast?).map (fun r => r.position)
      = some (renderId elast.id)
    ∧ idLt c elast.id
    ∧ pollTick (renderId c) (XReadRes.reply (xreadReply key (xreadEntries S c)))
        HandoffRes.dying = PollOutcome.dying
    ∧ (∀ h2 : HandoffRes, pollTick (renderId c) XReadRes.errNil h2 = PollOutcome.cont)
    ∧ (∀ h2 : HandoffRes,
        cursorAdvances (renderId c)
          (cursorAfter (renderId c) (pollTick (renderId c) (xreadStore key S c) h2))) := by
  have hgt : idLt c elast.id :=
    xreadEntries_gt S c elast (List.mem_of_mem_getLast? hlast)
  have hstore : xreadStore key S c
      = XReadRes.reply (xreadReply key (xreadEntries S c)) := by
    unfold xreadStore
    cases hes : xreadEntries S c with
    | nil => rw [hes] at hlast; cases hlast
    | cons a t => simp
  have hdeliv : pollTick (renderId c) (XReadRes.reply (xreadReply key (xreadEntries S c)))
      HandoffRes.delivered
      = PollOutcome.handoff (batchOf key (xreadEntries S c)) (renderId elast.id) := by
    simp only [pollTick, toRecords_xreadReply, getLast_batchOf key _ elast hlast]
  refine ⟨hstore, hdeliv, by rw [getLast_batchOf key _ elast hlast]; rfl, hgt, ?_,
    fun h2 => rfl, ?_⟩
  · simp only [pollTick, toRecords_xreadReply]
  · intro h2
    rw [hstore]
    cases h2 with
    | dying =>
      simp only [pollTick, toRecords_xreadReply]
      exact Or.inl rfl
    | delivered =>
      rw [hdeliv]
      exact Or.inr ⟨c, elast.id, rfl, rfl, hgt⟩

/-- Witness for C1 at a store holding one entry past the cursor. -/
theorem cursor_advances_only_after_handoff_witness :
    xreadStore "k" [Entry.mk (1, 0) [("a", "b")]] (0, 0)
      = XReadRes.reply (xreadReply "k" (xreadEntries [Entry.mk (1, 0) [("a", "b")]] (0, 0)))
    ∧ pollTick (renderId (0, 0))
        (XReadRes.reply (xreadReply "k" (xreadEntries [Entry.mk (1, 0) [("a", "b")]] (0, 0))))
        HandoffRes.delivered
      = PollOutcome.handoff (batchOf "k" (xreadEntries [Entry.mk (1, 0) [("a", "b")]] (0, 0)))
          (renderId (Entry.mk (1, 0) [("a", "b")]).id)
    ∧ ((batchOf "k" (xreadEntries [Entry.mk (1, 0) [("a", "b")]] (0, 0))).getLast?).map
        (fun r => r.position)
      = some (renderId (Entry.mk (1, 0) [("a", "b")]).id)
    ∧ idLt (0, 0) (Entry.mk (1, 0) [("a", "b")]).id
    ∧ pollTick (renderId (0, 0))
        (XReadRes.reply (xreadReply "k" (xreadEntries [Entry.mk (1, 0) [("a", "b")]] (0, 0))))
        HandoffRes.dying = PollOutcome.dying
    ∧ (∀ h2 : HandoffRes, pollTick (renderId (0, 0)) XReadRes.errNil h2 = PollOutcome.cont)
    ∧ (∀ h2 : HandoffRes,
        cursorAdvances (renderId (0, 0))
          (cursorAfter (renderId (0, 0))
            (pollTick (renderId (0, 0))
              (xreadStore "k" [Entry.mk (1, 0) [("a", "b")]] (0, 0)) h2))) :=
  cursor_advances_only_after_handoff "k" [Entry.mk (1, 0) [("a", "b")]] (0, 0)
    (Entry.mk (1, 0) [("a", "b")]) (by decide)

/-- C8: whenever the bounded read returns a reply (a faithful store returns
`ErrNil` rather than an empty reply) and decoding succeeds, the decoded
batch is non-empty, so the cursor-advance index `len(records)-1` is within
bounds and the delivered handoff does not fault. -/
theorem decoded_batch_nonempty (key : String) (S : List Entry) (c : Nat × Nat)
    (resp : List RValue) (hrep : xreadStore key S c = XReadRes.reply resp) :
    toRecords resp = some (batchOf key (xreadEntries S c), none)
    ∧ batchOf key (xreadEntries S c) ≠ []
    ∧ (batchOf key (xreadEntries S c)).length - 1 < (batchOf key (xreadEntries S c)).length
    ∧ pollTick (renderId c) (XReadRes.reply resp) HandoffRes.delivered ≠ PollOutcome.crashed := by
  have hne2 : xreadEntries S c ≠ [] := by
    intro h0
    unfold xreadStore at hrep
    rw [h0] at hrep
    cases hrep
  have hresp : resp = xreadReply key (xreadEntries S c) := by
    unfold xreadStore at hrep
    cases hes : xreadEntries S c with
    | nil => exact absurd hes hne2
    | cons a t =>
      rw [hes] at hrep
      cases hrep
      rfl
  subst hresp
  have hne : batchOf key (xreadEntries S c) ≠ [] := by
    intro h0
    apply hne2
    simpa [batchOf] using h0
  refine ⟨toRecords_xreadReply key _, hne, ?_, ?_⟩
  · have : 0 < (batchOf key (xreadEntries S c)).length := List.length_pos.mpr hne
    omega
  · have hsome : ((batchOf key (xreadEntries S c)).getLast?).isSome := by
      rw [List.getLast?_isSome]
      exact hne
    rcases Option.isSome_iff_exists.mp hsome with ⟨r, hr⟩
    simp [pollTick, toRecords_xreadReply, hr]

/-- Witness for C8 at a store holding one entry past the cursor. -/
theorem decoded_batch_nonempty_witness :
    toRecords (xreadReply "k" (xreadEntries [Entry.mk (1, 0) [("a", "b")]] (0, 0)))
      = some (batchOf "k" (xreadEntries [Entry.mk (1, 0) [("a", "b")]] (0, 0)), none)
    ∧ batchOf "k" (xreadEntries [Entry.mk (1, 0) [("a", "b")]] (0, 0)) ≠ []
    ∧ (batchOf "k" (xreadEntries [Entry.mk (1, 0) [("a", "b")]] (0, 0))).length - 1
        < (batchOf "k" (xreadEntries [Entry.mk (1, 0) [("a", "b")]] (0, 0))).length
    ∧ pollTick (renderId (0, 0))
        (XReadRes.reply (xreadReply "k" (xreadEntries [Entry.mk (1, 0) [("a", "b")]] (0, 0))))
        HandoffRes.delivered ≠ PollOutcome.crashed :=
  decoded_batch_nonempty "k" [Entry.mk (1, 0) [("a", "b")]] (0, 0)
    (xreadReply "k" (xreadEntries [Entry.mk (1, 0) [("a", "b")]] (0, 0))) rfl

/-! ### Claim theorems for the pipeline state -/

/-- C4: `HasNext` is true exactly when the record relay holds a record or
the pipeline has terminated (the tomb is dying, whether by failure or by
explicit stop), and false exactly when the pipeline is alive and the relay
is empty. -/
theorem HasNext_iff (s : PipeState) :
    (HasNext s = true ↔ (s.buffer ≠ [] ∨ s.tombDying = true))
    ∧ (HasNext s = false ↔ (s.buffer = [] ∧ s.tombDying = false)) := by
  cases hb : s.buffer <;> cases hd : s.tombDying <;>
    simp [HasNext, hb, hd]

theorem Stop_fields (closeOk : Bool) (s sN : PipeState) (e : Option String)
    (h : Stop closeOk s = some (sN, e)) :
    sN.caches = s.caches ∧ sN.buffer = s.buffer ∧ sN.flushHold = s.flushHold
      ∧ sN.lastID = s.lastID := by
  unfold Stop at h
  cases hc : s.client with
  | none => rw [hc] at h; cases h
  | some u =>
    rw [hc] at h
    cases closeOk with
    | true =>
      simp only [if_true] at h
      cases h
      simp [tombKill]
    | false =>
      simp only [Bool.false_eq_true, if_false] at h
      cases h
      simp [tombKill]

/-- C6: from the freshly constructed iterator state, every reachable state
keeps at most one decoded batch pending in the batch relay and at most one
record pending in the record relay: both channels are created with capacity
one and a send is enabled only while the channel is below capacity, so
in-flight unconsumed data is bounded by one pending batch plus the batch in
active flush, regardless of log length. -/
theorem PStep_preserves_bounds (a b : PipeState) (hstep : PStep a b)
    (hinv : a.caches.length ≤ cachesCap ∧ a.buffer.length ≤ bufferCap) :
    b.caches.length ≤ cachesCap ∧ b.buffer.length ≤ bufferCap := by
  cases hstep with
  | handoff batch r hlast hfree halive =>
    refine ⟨?_, hinv.2⟩
    show (a.caches ++ [batch]).length ≤ cachesCap
    simp only [List.length_append, List.length_singleton]
    unfold cachesCap at hfree ⊢
    omega
  | pollFatal e halive =>
    simpa [tombKill] using hinv
  | flushTake bt rest halive hhold hcaches =>
    refine ⟨?_, hinv.2⟩
    show rest.length ≤ cachesCap
    have h1 := hinv.1
    rw [hcaches] at h1
    simp only [List.length_cons] at h1
    omega
  | flushPush r rest halive hhold hfree =>
    refine ⟨hinv.1, ?_⟩
    show (a.buffer ++ [r]).length ≤ bufferCap
    simp only [List.length_append, List.length_singleton]
    unfold bufferCap at hfree ⊢
    omega
  | consumerNext r rest hbuf =>
    refine ⟨hinv.1, ?_⟩
    show rest.length ≤ bufferCap
    have h2 := hinv.2
    rw [hbuf] at h2
    simp only [List.length_cons] at h2
    omega
  | stopCall =>
    rename_i closeOk e hstop
    rcases Stop_fields closeOk a b e hstop with ⟨hca, hbu, _, _⟩
    rw [hca, hbu]
    exact hinv

theorem relays_single_slot (key lastID : String) (s : PipeState)
    (hreach : Reach (initState key lastID) s) :
    s.caches.length ≤ cachesCap ∧ s.buffer.length ≤ bufferCap := by
  induction hreach with
  | base => simp [initState, cachesCap, bufferCap]
  | step hr hstep ih => exact PStep_preserves_bounds _ _ hstep ih

/-- Witness for C6 at the initial state itself. -/
theorem relays_single_slot_witness :
    (initState "k" "0-0").caches.length ≤ cachesCap
    ∧ (initState "k" "0-0").buffer.length ≤ bufferCap :=
  relays_single_slot "k" "0-0" (initState "k" "0-0") Reach.base

/-- Whether an `Except` carries a success. -/
def isOkE {α β : Type} : Except α β → Bool
  | .ok _ => true
  | .error _ => false

/-- C7: stream-mode construction and stream-mode destination open succeed
exactly when the key's reported type is `none` (absent) or `stream`; any
other type, and any failure of the TYPE query itself, is rejected with an
error — in the source constructor this happens before either pipeline task
is started (the `.ok` state is the one the tasks run in, and no such state
is produced on the error path). -/
theorem key_type_gate (keyType key position redisKey : String) :
    (isOkE (NewStreamIterator (.ok keyType) key position) = true
      ↔ (keyType = "none" ∨ keyType = "stream"))
    ∧ (validateKey ModeStream redisKey (.ok keyType) = none
      ↔ (keyType = "none" ∨ keyType = "stream"))
    ∧ (∀ e : String, isOkE (NewStreamIterator (.error e) key position) = false)
    ∧ (∀ e : String, validateKey ModeStream redisKey (.error e) ≠ none) := by
  refine ⟨?_, ?_, fun e => rfl, fun e => by simp [validateKey, ModeStream, ModePubSub]⟩
  · by_cases h1 : keyType = "none"
    · simp [NewStreamIterator, isOkE, h1]
    · by_cases h2 : keyType = "stream"
      · simp [NewStreamIterator, isOkE, h1, h2]
      · simp [NewStreamIterator, isOkE, h1, h2]
  · by_cases h1 : keyType = "none"
    · simp [validateKey, ModeStream, ModePubSub, h1]
    · by_cases h2 : keyType = "stream"
      · simp [validateKey, ModeStream, ModePubSub, h1, h2]
      · simp [validateKey, ModeStream, ModePubSub, h1, h2]

/-- The state a first successful `Stop` leaves behind: ticker halted, tomb
dying for the "iterator stopped" reason, connection reference cleared. -/
def stoppedState (s : PipeState) : PipeState :=
  { s with tickerOn := false, tombDying := true,
           tombReason := some "iterator stopped", client := none }

/-- C9 (amended): `Stop` on a live iterator with an open connection halts
the ticker, raises the termination latch with the "iterator stopped"
reason, clears the connection — but it is not idempotent in effect: a
second call dereferences the cleared (nil) client and faults. -/
theorem Stop_raises_latch_and_releases (s : PipeState)
    (hc : s.client = some ()) (hd : s.tombDying = false) (hr : s.tombReason = none) :
    Stop true s = some (stoppedState s, none)
    ∧ (stoppedState s).tickerOn = false
    ∧ (stoppedState s).tombDying = true
    ∧ (stoppedState s).tombReason = some "iterator stopped"
    ∧ (stoppedState s).client = none
    ∧ Stop true (stoppedState s) = none := by
  refine ⟨?_, rfl, rfl, rfl, rfl, ?_⟩
  · unfold Stop
    rw [hc]
    simp [tombKill, hr, stoppedState]
  · unfold Stop
    rfl

/-- Witness for the amended C9 at the initial iterator state. -/
theorem Stop_raises_latch_and_releases_witness :
    Stop true (initState "k" "0-0") = some (stoppedState (initState "k" "0-0"), none)
    ∧ (stoppedState (initState "k" "0-0")).tickerOn = false
    ∧ (stoppedState (initState "k" "0-0")).tombDying = true
    ∧ (stoppedState (initState "k" "0-0")).tombReason = some "iterator stopped"
    ∧ (stoppedState (initState "k" "0-0")).client = none
    ∧ Stop true (stoppedState (initState "k" "0-0")) = none :=
  Stop_raises_latch_and_releases (initState "k" "0-0") rfl rfl rfl

/-- C9 counterexample to the claim as stated: after a first successful
`Stop`, a second `Stop` call does not complete without fault — it hits the
nil client (`none`, the modelled nil-pointer dereference). -/
theorem Stop_twice_faults :
    (Stop true (initState "k" "0-0")).isSome = true
    ∧ ((Stop true (initState "k" "0-0")).bind fun r => Stop true r.1) = none := by
  exact ⟨rfl, rfl⟩

/-! ### Lemmas and claim theorem for the destination write path -/

theorem writePubSubLoop_all_ok (key : String) (cmdOk : Nat → Bool) :
    ∀ (recs : List DestRecord) (i : Nat) (st : RedisEffects),
      (∀ j, j < recs.length → cmdOk (i + j) = true) →
      writePubSubLoop key cmdOk i recs st
        = ((i + recs.length, none),
           { st with published := st.published ++ recs.map (fun r => r.payloadAfter) }) := by
  intro recs
  induction recs with
  | nil =>
    intro i st h
    simp [writePubSubLoop]
  | cons r t ih =>
    intro i st h
    have h0 : cmdOk i = true := by simpa using h 0 (by simp)
    simp only [writePubSubLoop, h0, if_true]
    rw [ih (i + 1) _ ?_]
    · have hlen : i + 1 + t.length = i + (r :: t).length := by simp; omega
      rw [hlen]
      simp [List.append_assoc]
    · intro j hj
      have harg : i + 1 + j = i + (j + 1) := by omega
      rw [harg]
      exact h (j + 1) (by simp only [List.length_cons]; omega)

theorem writePubSubLoop_first_fail (key : String) (cmdOk : Nat → Bool) :
    ∀ (recs : List DestRecord) (i : Nat) (st : RedisEffects) (k : Nat),
      k < recs.length → cmdOk (i + k) = false → (∀ j, j < k → cmdOk (i + j) = true) →
      writePubSubLoop key cmdOk i recs st
        = ((i + k, some ("error publishing message to channel(" ++ key ++ "): command failed")),
           { st with published := st.published ++ (recs.take k).map (fun r => r.payloadAfter) }) := by
  intro recs
  induction recs with
  | nil => intro i st k hk hfail hprev; simp at hk
  | cons r t ih =>
    intro i st k hk hfail hprev
    cases k with
    | zero =>
      have h0 : cmdOk i = false := by simpa using hfail
      simp [writePubSubLoop, h0]
    | succ k2 =>
      have h0 : cmdOk i = true := by simpa using hprev 0 (by omega)
      simp only [writePubSubLoop, h0, if_true]
      rw [ih (i + 1) _ k2 (by simp only [List.length_cons] at hk; omega) ?_ ?_]
      · have harg2 : i + 1 + k2 = i + (k2 + 1) := by omega
        rw [harg2]
        simp [List.append_assoc]
      · have harg : i + 1 + k2 = i + (k2 + 1) := by omega
        rw [harg]
        exact hfail
      · intro j hj
        have harg : i + 1 + j = i + (j + 1) := by omega
        rw [harg]
        exact hprev (j + 1) (by omega)

theorem writeStreamLoop_all_ok (key : String) (cmdOk : Nat → Bool) :
    ∀ (recs : List DestRecord) (i : Nat) (st : RedisEffects),
      (∀ (j : Nat) (hj : j < recs.length),
        streamRecFails cmdOk (i + j) (recs.get ⟨j, hj⟩) = false) →
      writeStreamLoop key cmdOk i recs st
        = ((i + recs.length, none),
           { st with streamEntries := st.streamEntries ++ recs.map argsOf }) := by
  intro recs
  induction recs with
  | nil =>
    intro i st h
    simp [writeStreamLoop]
  | cons r t ih =>
    intro i st h
    have h0 : streamRecFails cmdOk i r = false := by simpa using h 0 (by simp)
    cases hp : payloadToStreamArgs r with
    | error e =>
      rw [streamRecFails, hp] at h0
      simp at h0
    | ok args =>
      simp only [streamRecFails, hp, Bool.not_eq_false'] at h0
      have hok : cmdOk i = true := by
        cases hc : cmdOk i with
        | true => rfl
        | false => rw [hc] at h0; cases h0
      simp only [writeStreamLoop, hp, hok, if_true]
      rw [ih (i + 1) _ ?_]
      · have hlen : i + 1 + t.length = i + (r :: t).length := by simp; omega
        rw [hlen]
        have hargs : argsOf r = args := by simp [argsOf, hp]
        simp [List.append_assoc, hargs]
      · intro j hj
        have harg : i + 1 + j = i + (j + 1) := by omega
        have := h (j + 1) (by simp only [List.length_cons]; omega)
        rw [harg]
        simpa using this

theorem writeStreamLoop_first_fail (key : String) (cmdOk : Nat → Bool) :
    ∀ (recs : List DestRecord) (i : Nat) (st : RedisEffects) (k : Nat) (hk : k < recs.length),
      streamRecFails cmdOk (i + k) (recs.get ⟨k, hk⟩) = true →
      (∀ (j : Nat) (hj : j < recs.length), j < k →
        streamRecFails cmdOk (i + j) (recs.get ⟨j, hj⟩) = false) →
      (writeStreamLoop key cmdOk i recs st).1.1 = i + k
      ∧ ((writeStreamLoop key cmdOk i recs st).1.2).isSome = true
      ∧ (writeStreamLoop key cmdOk i recs st).2
          = { st with streamEntries := st.streamEntries ++ (recs.take k).map argsOf } := by
  intro recs
  induction recs with
  | nil => intro i st k hk; simp at hk
  | cons r t ih =>
    intro i st k hk hfail hprev
    cases k with
    | zero =>
      have h0 : streamRecFails cmdOk i r = true := by simpa using hfail
      cases hp : payloadToStreamArgs r with
      | error e =>
        refine ⟨?_, ?_, ?_⟩ <;> simp [writeStreamLoop, hp]
      | ok args =>
        simp only [streamRecFails, hp] at h0
        have hcf : cmdOk i = false := by
          cases hc : cmdOk i with
          | true => rw [hc] at h0; cases h0
          | false => rfl
        refine ⟨?_, ?_, ?_⟩ <;> simp [writeStreamLoop, hp, hcf]
    | succ k2 =>
      have h0 : streamRecFails cmdOk i r = false := by simpa using hprev 0 (by simp) (by omega)
      cases hp : payloadToStreamArgs r with
      | error e =>
        rw [streamRecFails, hp] at h0
        simp at h0
      | ok args =>
        simp only [streamRecFails, hp, Bool.not_eq_false'] at h0
        have hok : cmdOk i = true := by
          cases hc : cmdOk i with
          | true => rfl
          | false => rw [hc] at h0; cases h0
        simp only [writeStreamLoop, hp, hok, if_true]
        have hk2 : k2 < t.length := by simp only [List.length_cons] at hk; omega
        have hfail2 : streamRecFails cmdOk (i + 1 + k2) (t.get ⟨k2, hk2⟩) = true := by
          have harg : i + 1 + k2 = i + (k2 + 1) := by omega
          rw [harg]
          simpa using hfail
        have hprev2 : ∀ (j : Nat) (hj : j < t.length), j < k2 →
            streamRecFails cmdOk (i + 1 + j) (t.get ⟨j, hj⟩) = false := by
          intro j hj hjk
          have harg : i + 1 + j = i + (j + 1) := by omega
          rw [harg]
          have := hprev (j + 1) (by simp only [List.length_cons]; omega) (by omega)
          simpa using this
        rcases ih (i + 1) _ k2 hk2 hfail2 hprev2 with ⟨ha, hb, hc⟩
        refine ⟨?_, ?_, ?_⟩
        · rw [ha]; omega
        · exact hb
        · rw [hc]
          have hargs : argsOf r = args := by simp [argsOf, hp]
          simp [List.append_assoc, hargs]

/-- C3: `Write` applies records in order and stops at the first failure, in
both modes: if every record applies, it returns the batch length and no
error, having issued the command for every record; if the record at index k
is the first to fail (its command fails, or — in stream mode — its payload
fails to convert), it returns exactly k with a non-nil error, and the store
effects are exactly those of the k records before index k, none after. -/
theorem Write_stops_at_first_failure (key : String) (cmdOk : Nat → Bool)
    (recs : List DestRecord) (st : RedisEffects) :
    ((∀ j, j < recs.length → cmdOk j = true) →
      Write ModePubSub key cmdOk recs st
        = ((recs.length, none),
           { st with published := st.published ++ recs.map (fun r => r.payloadAfter) }))
    ∧ ((∀ (j : Nat) (hj : j < recs.length),
          streamRecFails cmdOk j (recs.get ⟨j, hj⟩) = false) →
      Write ModeStream key cmdOk recs st
        = ((recs.length, none),
           { st with streamEntries := st.streamEntries ++ recs.map argsOf }))
    ∧ (∀ k, k < recs.length → cmdOk k = false → (∀ j, j < k → cmdOk j = true) →
        (Write ModePubSub key cmdOk recs st).1.1 = k
        ∧ ((Write ModePubSub key cmdOk recs st).1.2).isSome = true
        ∧ (Write ModePubSub key cmdOk recs st).2
            = { st with published := st.published ++ (recs.take k).map (fun r => r.payloadAfter) })
    ∧ (∀ (k : Nat) (hk : k < recs.length),
        streamRecFails cmdOk k (recs.get ⟨k, hk⟩) = true →
        (∀ (j : Nat) (hj : j < recs.length), j < k →
          streamRecFails cmdOk j (recs.get ⟨j, hj⟩) = false) →
        (Write ModeStream key cmdOk recs st).1.1 = k
        ∧ ((Write ModeStream key cmdOk recs st).1.2).isSome = true
        ∧ (Write ModeStream key cmdOk recs st).2
            = { st with streamEntries := st.streamEntries ++ (recs.take k).map argsOf }) := by
  have hw1 : Write ModePubSub key cmdOk recs st = writePubSubLoop key cmdOk 0 recs st := by
    simp [Write]
  have hw2 : Write ModeStream key cmdOk recs st = writeStreamLoop key cmdOk 0 recs st := by
    simp [Write, ModeStream, ModePubSub]
  refine ⟨?_, ?_, ?_, ?_⟩
  · intro h
    rw [hw1, writePubSubLoop_all_ok key cmdOk recs 0 st (fun j hj => by
      simpa using h j hj)]
    simp
  · intro h
    rw [hw2, writeStreamLoop_all_ok key cmdOk recs 0 st (fun j hj => by
      simpa using h j hj)]
    simp
  · intro k hk hfail hprev
    rw [hw1, writePubSubLoop_first_fail key cmdOk recs 0 st k hk (by simpa using hfail)
      (fun j hj => by simpa using hprev j hj)]
    simp
  · intro k hk hfail hprev
    rcases writeStreamLoop_first_fail key cmdOk recs 0 st k hk (by simpa using hfail)
      (fun j hj hjk => by simpa using hprev j hj hjk) with ⟨ha, hb, hc⟩
    rw [hw2]
    exact ⟨by rw [ha]; omega, hb, hc⟩

/-- Witness for C3: two records, the command for index 1 fails; pubsub
`Write` returns 1 with an error, having published only the first payload. -/
theorem Write_stops_at_first_failure_witness :
    (Write ModePubSub "ch" (fun i => decide (i = 0))
        [DestRecord.mk "p0" (some [("a", "b")]), DestRecord.mk "p1" (some [("c", "d")])]
        (RedisEffects.mk [] [])).1.1 = 1
    ∧ ((Write ModePubSub "ch" (fun i => decide (i = 0))
        [DestRecord.mk "p0" (some [("a", "b")]), DestRecord.mk "p1" (some [("c", "d")])]
        (RedisEffects.mk [] [])).1.2).isSome = true
    ∧ (Write ModePubSub "ch" (fun i => decide (i = 0))
        [DestRecord.mk "p0" (some [("a", "b")]), DestRecord.mk "p1" (some [("c", "d")])]
        (RedisEffects.mk [] [])).2
      = { RedisEffects.mk [] [] with published := [] ++
          ([DestRecord.mk "p0" (some [("a", "b")]),
            DestRecord.mk "p1" (some [("c", "d")])].take 1).map (fun r => r.payloadAfter) } :=
  (Write_stops_at_first_failure "ch" (fun i => decide (i = 0))
      [DestRecord.mk "p0" (some [("a", "b")]), DestRecord.mk "p1" (some [("c", "d")])]
      (RedisEffects.mk [] [])).2.2.1 1 (by decide) (by decide)
    (fun j hj => by
      have : j = 0 := by omega
      subst this
      decide)

/-- Witness for C4 at the initial iterator state. -/
theorem HasNext_iff_witness :
    (HasNext (initState "k" "0-0") = true
      ↔ ((initState "k" "0-0").buffer ≠ [] ∨ (initState "k" "0-0").tombDying = true))
    ∧ (HasNext (initState "k" "0-0") = false
      ↔ ((initState "k" "0-0").buffer = [] ∧ (initState "k" "0-0").tombDying = false)) :=
  HasNext_iff (initState "k" "0-0")

/-- Witness for C7 at the incompatible key type `set`. -/
theorem key_type_gate_witness :
    (isOkE (NewStreamIterator (.ok "set") "k" "") = true ↔ ("set" = "none" ∨ "set" = "stream"))
    ∧ (validateKey ModeStream "k" (.ok "set") = none ↔ ("set" = "none" ∨ "set" = "stream"))
    ∧ (∀ e : String, isOkE (NewStreamIterator (.error e) "k" "") = false)
    ∧ (∀ e : String, validateKey ModeStream "k" (.error e) ≠ none) :=
  key_type_gate "set" "k" "" "k"

/-- Witness for C10 at a field list repeating the name `a`. -/
theorem arrInterfaceToMap_duplicates_last_wins_witness :
    arrInterfaceToMap (flattenPairs [("a", "1"), ("a", "2")])
      = .ok (foldPairs [("a", "1"), ("a", "2")])
    ∧ (∀ k, mapLookup (foldPairs [("a", "1"), ("a", "2")]) k = lastVal [("a", "1"), ("a", "2")] k)
    ∧ (keysOf (foldPairs [("a", "1"), ("a", "2")])).Nodup
    ∧ (foldPairs [("a", "1"), ("a", "2")]).length
        ≤ (flattenPairs [("a", "1"), ("a", "2")]).length / 2 :=
  arrInterfaceToMap_duplicates_last_wins [("a", "1"), ("a", "2")]

end Redis
